import Mathlib

/-!
Verification development for the DropList repository: shallow embedding of
the playback queue engine (`src/utils/shuffle.ts`), the playback surface
state (`src/app/page.tsx`), the track-name parser and artist-image matcher
(`src/utils/track.ts`), the time formatting utilities (`src/utils/time.ts`),
and the Drive folder resolver / listing parser
(`src/app/api/drive-folder/route.ts`), together with proofs of the spec's
testable properties.

JavaScript arrays of track indices become `List Nat`; the lodash `shuffle`
(a uniformly random permutation) becomes an explicit function parameter
`σ : List Nat → List Nat` constrained, where a theorem needs it, by
`PermFn σ` (its output is a permutation of its input).  JS `arr[i]` on a
possibly out-of-range index yields `undefined`; the embedding uses
`List.getD i 0`, and every theorem below only relies on that value at
indices that are provably in range.
-/

namespace DropList

/-- JS `arr[i]` (used in the source only at in-range indices). -/
def jsGet (l : List Nat) (i : Nat) : Nat := l.getD i 0

/-- JS `arr.slice(-k)`: the last `k` elements (the whole array when `k = 0`
or `k ≥ length`, matching `slice(-0) = slice(0)`). -/
def jsSliceLast (l : List Nat) (k : Nat) : List Nat :=
  if k = 0 then l else l.drop (l.length - k)

/-- `σ` behaves like lodash `shuffle`: it returns a permutation of its input. -/
def PermFn (σ : List Nat → List Nat) : Prop := ∀ l : List Nat, List.Perm (σ l) l

/-! ## Data model: `TrackType` (src/app/lib/types.ts)

A browser `File` object is embedded by the attributes the code reads
(`size`, `lastModified`); the track's display `name` is stored on the
track itself. -/

structure LocalFile where
  size : Nat
  lastModified : Nat
deriving DecidableEq, Repr

structure Track where
  id : String
  name : String
  file : Option LocalFile
  url : Option String
  googleDriveUrl : Option String
deriving DecidableEq, Repr

/-! ## Queue Engine (src/utils/shuffle.ts) -/

structure ShuffleState where
  queue : List Nat
  queueIndex : Nat
  recentlyPlayed : List Nat
deriving DecidableEq, Repr

/-- `generateShuffleQueue(tracks, { excludeIndices, recentlyPlayed,
maxRecentHistory })`.  The lodash `shuffle` at the end is the parameter `σ`.
Call sites pass the source's default values explicitly
(`excludeIndices = []`, `recentlyPlayed = []`, `maxRecentHistory = 2`). -/
def generateShuffleQueue (σ : List Nat → List Nat) (tracks : List Track)
    (excludeIndices recentlyPlayed : List Nat) (maxRecentHistory : Nat) : List Nat :=
  let indices := List.range tracks.length
  let availableIndices := indices.filter (fun index => !(excludeIndices.contains index))
  let candidates :=
    if availableIndices.length > 2 && recentlyPlayed.length > 0 then
      let recentCount := min maxRecentHistory recentlyPlayed.length
      let recentTracks := jsSliceLast recentlyPlayed recentCount
      let c := availableIndices.filter (fun index => !(recentTracks.contains index))
      if c.length = 0 then availableIndices else c
    else availableIndices
  σ candidates

/-- `updateRecentlyPlayed(currentHistory, newTrackIndex, maxHistory = 5)`. -/
def updateRecentlyPlayed (currentHistory : List Nat) (newTrackIndex : Nat)
    (maxHistory : Nat) : List Nat :=
  jsSliceLast (currentHistory ++ [newTrackIndex]) maxHistory

/-- `createInitialShuffleState(tracks, currentIndex)`. -/
def createInitialShuffleState (σ : List Nat → List Nat) (tracks : List Track)
    (currentIndex : Nat) : ShuffleState :=
  if tracks.length ≤ 1 then
    { queue := [], queueIndex := 0, recentlyPlayed := [] }
  else
    { queue := generateShuffleQueue σ tracks [currentIndex] [] 2
      queueIndex := 0
      recentlyPlayed := [currentIndex] }

/-- `getNextShuffleTrack(tracks, currentIndex, shuffleState)`: `none` is the
JS `null` return; otherwise `(nextIndex, newState)`. -/
def getNextShuffleTrack (σ : List Nat → List Nat) (tracks : List Track)
    (currentIndex : Nat) (shuffleState : ShuffleState) : Option (Nat × ShuffleState) :=
  if tracks.length = 0 then none
  else if tracks.length = 1 then none
  else if shuffleState.queue.length = 0 ∨ shuffleState.queueIndex ≥ shuffleState.queue.length then
    let newQueue := generateShuffleQueue σ tracks [currentIndex] shuffleState.recentlyPlayed 2
    let nextIndex := jsGet newQueue 0
    let newRecentlyPlayed := updateRecentlyPlayed shuffleState.recentlyPlayed currentIndex 5
    some (nextIndex, { queue := newQueue, queueIndex := 1, recentlyPlayed := newRecentlyPlayed })
  else
    let nextIndex := jsGet shuffleState.queue shuffleState.queueIndex
    let newRecentlyPlayed := updateRecentlyPlayed shuffleState.recentlyPlayed currentIndex 5
    some (nextIndex,
      { queue := shuffleState.queue
        queueIndex := shuffleState.queueIndex + 1
        recentlyPlayed := newRecentlyPlayed })

/-- `getPrevShuffleTrack(tracks, currentIndex, shuffleState)`. -/
def getPrevShuffleTrack (σ : List Nat → List Nat) (tracks : List Track)
    (currentIndex : Nat) (shuffleState : ShuffleState) : Option (Nat × ShuffleState) :=
  if tracks.length = 0 then none
  else if tracks.length = 1 then none
  else if shuffleState.queueIndex > 0 then
    some (jsGet shuffleState.queue (shuffleState.queueIndex - 1),
      { queue := shuffleState.queue
        queueIndex := shuffleState.queueIndex - 1
        recentlyPlayed := shuffleState.recentlyPlayed })
  else
    let indices := List.range tracks.length
    let filteredIndices := indices.filter (fun index => index != currentIndex)
    let newQueue := σ filteredIndices
    let startIndex := newQueue.length - 1
    let prevIndex := jsGet newQueue startIndex
    some (prevIndex,
      { queue := newQueue
        queueIndex := startIndex
        recentlyPlayed := shuffleState.recentlyPlayed })

/-- `handleManualTrackSelection(tracks, selectedIndex, _currentShuffleState)`. -/
def handleManualTrackSelection (σ : List Nat → List Nat) (tracks : List Track)
    (selectedIndex : Nat) (_currentShuffleState : ShuffleState) : ShuffleState :=
  { queue := generateShuffleQueue σ tracks [selectedIndex] [] 2
    queueIndex := 0
    recentlyPlayed := [selectedIndex] }

/-- `resetShuffleState()`. -/
def resetShuffleState : ShuffleState :=
  { queue := [], queueIndex := 0, recentlyPlayed := [] }

/-! ## Playback surface state (src/app/page.tsx)

The component state relevant to queue navigation and the mode flags.
`useState` initial values give `initialPageState`. -/

structure PageState where
  tracks : List Track
  currentIndex : Nat
  isShuffled : Bool
  isRepeated : Bool
  isPlaying : Bool
  shuffleState : ShuffleState
deriving DecidableEq, Repr

def initialPageState : PageState :=
  { tracks := []
    currentIndex := 0
    isShuffled := false
    isRepeated := false
    isPlaying := false
    shuffleState := { queue := [], queueIndex := 0, recentlyPlayed := [] } }

/-- `handleNext` (page.tsx): shuffled stepping via `getNextShuffleTrack`,
otherwise `(currentIndex + 1) % tracks.length`. -/
def handleNext (σ : List Nat → List Nat) (st : PageState) : PageState :=
  if st.tracks.length = 0 then st
  else if st.isShuffled then
    match getNextShuffleTrack σ st.tracks st.currentIndex st.shuffleState with
    | some (nextIndex, newState) =>
        { st with currentIndex := nextIndex, shuffleState := newState, isPlaying := true }
    | none => { st with isPlaying := true }
  else
    { st with currentIndex := (st.currentIndex + 1) % st.tracks.length, isPlaying := true }

/-- `handlePrev` (page.tsx): the sequential branch computes
`(currentIndex - 1 + tracks.length) % tracks.length` in JS number
arithmetic, embedded over `Int` (the operand is non-negative, so JS `%`
agrees with `Int.emod`). -/
def handlePrev (σ : List Nat → List Nat) (st : PageState) : PageState :=
  if st.tracks.length = 0 then st
  else if st.isShuffled then
    match getPrevShuffleTrack σ st.tracks st.currentIndex st.shuffleState with
    | some (prevIndex, newState) =>
        { st with currentIndex := prevIndex, shuffleState := newState, isPlaying := true }
    | none => { st with isPlaying := true }
  else
    { st with
      currentIndex := (((st.currentIndex : Int) - 1 + st.tracks.length) % (st.tracks.length : Int)).toNat
      isPlaying := true }

/-- `handleShuffleToggle` (page.tsx): enabling shuffle clears repeat and
builds a fresh initial shuffle state; disabling clears the queue/history. -/
def handleShuffleToggle (σ : List Nat → List Nat) (st : PageState) : PageState :=
  let newShuffled := !st.isShuffled
  if newShuffled then
    { st with
      isShuffled := newShuffled
      isRepeated := false
      shuffleState := createInitialShuffleState σ st.tracks st.currentIndex }
  else
    { st with isShuffled := newShuffled, shuffleState := resetShuffleState }

/-- `handleRepeatToggle` (page.tsx): enabling repeat clears shuffle and the
shuffle state. -/
def handleRepeatToggle (st : PageState) : PageState :=
  let newRepeated := !st.isRepeated
  if newRepeated then
    { st with isRepeated := newRepeated, isShuffled := false, shuffleState := resetShuffleState }
  else
    { st with isRepeated := newRepeated }

/-- The playlist row `onClick` handler (page.tsx): manual selection of track
`i` regenerates the shuffle queue when shuffled, then jumps to `i`. -/
def handleSelectTrack (σ : List Nat → List Nat) (st : PageState) (i : Nat) : PageState :=
  let st' :=
    if st.isShuffled then
      { st with shuffleState := handleManualTrackSelection σ st.tracks i st.shuffleState }
    else st
  { st' with currentIndex := i, isPlaying := true }

/-- The `onPicked` / `handleFilesSelected` track-replacement path (page.tsx):
replaces the track list, resets index and shuffle state, leaves the mode
flags untouched. -/
def loadTracks (st : PageState) (picked : List Track) : PageState :=
  { st with
    tracks := picked
    currentIndex := 0
    isPlaying := decide (0 < picked.length)
    shuffleState := resetShuffleState }

/-! ## Reachability

`ShuffleReachable` is the set of `(currentIndex, shuffleState)` pairs the
shuffle sub-state can be in while shuffle mode is on, for a fixed track
list: entered by toggling shuffle on (at an arbitrary current index),
and stepped by `next()`, `prev()` and manual selection, each with an
arbitrary permutation function for that step's lodash `shuffle` calls.
`NoPrevShuffleReachable` is the same set without the `prev()` steps. -/

inductive ShuffleReachable (tracks : List Track) : Nat × ShuffleState → Prop where
  | enable (σ : List Nat → List Nat) (hσ : PermFn σ) (c : Nat) :
      ShuffleReachable tracks (c, createInitialShuffleState σ tracks c)
  | next (σ : List Nat → List Nat) (hσ : PermFn σ) (c c' : Nat) (s s' : ShuffleState) :
      ShuffleReachable tracks (c, s) →
      getNextShuffleTrack σ tracks c s = some (c', s') →
      ShuffleReachable tracks (c', s')
  | prev (σ : List Nat → List Nat) (hσ : PermFn σ) (c c' : Nat) (s s' : ShuffleState) :
      ShuffleReachable tracks (c, s) →
      getPrevShuffleTrack σ tracks c s = some (c', s') →
      ShuffleReachable tracks (c', s')
  | select (σ : List Nat → List Nat) (hσ : PermFn σ) (c i : Nat) (s : ShuffleState) :
      ShuffleReachable tracks (c, s) →
      ShuffleReachable tracks (i, handleManualTrackSelection σ tracks i s)

inductive NoPrevShuffleReachable (tracks : List Track) : Nat × ShuffleState → Prop where
  | enable (σ : List Nat → List Nat) (hσ : PermFn σ) (c : Nat) :
      NoPrevShuffleReachable tracks (c, createInitialShuffleState σ tracks c)
  | next (σ : List Nat → List Nat) (hσ : PermFn σ) (c c' : Nat) (s s' : ShuffleState) :
      NoPrevShuffleReachable tracks (c, s) →
      getNextShuffleTrack σ tracks c s = some (c', s') →
      NoPrevShuffleReachable tracks (c', s')
  | select (σ : List Nat → List Nat) (hσ : PermFn σ) (c i : Nat) (s : ShuffleState) :
      NoPrevShuffleReachable tracks (c, s) →
      NoPrevShuffleReachable tracks (i, handleManualTrackSelection σ tracks i s)

/-- Page states reachable from the component's initial state through the
user-facing operations.  The permutation functions are unconstrained here
(the mode-flag invariant does not depend on them). -/
inductive PageReach : PageState → Prop where
  | init : PageReach initialPageState
  | shuffleToggle (σ : List Nat → List Nat) (st : PageState) :
      PageReach st → PageReach (handleShuffleToggle σ st)
  | repeatToggle (st : PageState) :
      PageReach st → PageReach (handleRepeatToggle st)
  | next (σ : List Nat → List Nat) (st : PageState) :
      PageReach st → PageReach (handleNext σ st)
  | prev (σ : List Nat → List Nat) (st : PageState) :
      PageReach st → PageReach (handlePrev σ st)
  | select (σ : List Nat → List Nat) (st : PageState) (i : Nat) :
      PageReach st → PageReach (handleSelectTrack σ st i)
  | load (st : PageState) (picked : List Track) :
      PageReach st → PageReach (loadTracks st picked)

/-- The shuffle-queue invariant maintained by every state reached without
`prev()`: the queue is duplicate-free and the unserved tail of the queue
never contains the current index. -/
def ShuffleInv (c : Nat) (s : ShuffleState) : Prop :=
  s.queue.Nodup ∧ c ∉ s.queue.drop s.queueIndex

/-- A concrete two-track playlist used for closed-form witnesses. -/
def sampleTracks : List Track :=
  [⟨"t0", "Song A.mp3", none, none, none⟩, ⟨"t1", "Song B.mp3", none, none, none⟩]

/-- A concrete one-track page state used for closed-form witnesses. -/
def singleTrackState : PageState :=
  { tracks := [⟨"t0", "Solo.mp3", none, none, none⟩]
    currentIndex := 0
    isShuffled := false
    isRepeated := false
    isPlaying := false
    shuffleState := resetShuffleState }

/-! ## JS string primitives

The string-processing code is embedded at the `List Char` level.  JS
regexes are compiled by hand into scanning functions; each definition's
doc comment names the regex it implements.  Case folding and whitespace
are the ASCII fragments of their JS counterparts, which coincide with JS
on every string this code base manipulates. -/

/-- JS `\s` (ASCII fragment). -/
def jsWs (c : Char) : Bool := c == ' ' || c == '\t' || c == '\n' || c == '\r'

/-- JS `String.prototype.trim`. -/
def trimChars (cs : List Char) : List Char :=
  ((cs.dropWhile jsWs).reverse.dropWhile jsWs).reverse

/-- JS `String.prototype.toLowerCase` (ASCII fragment). -/
def lowerChars (cs : List Char) : List Char := cs.map Char.toLower

/-- The double-quote character. -/
def dq : Char := Char.ofNat 34

/-- JS `String.prototype.includes`. -/
def containsSub : List Char → List Char → Bool
  | [], sub => sub.isEmpty
  | c :: t, sub => sub.isPrefixOf (c :: t) || containsSub t sub

/-- Case-insensitive starts-with, the ASCII folding used by the `/i` flag. -/
def ciStartsWith : List Char → List Char → Bool
  | [], _ => true
  | _ :: _, [] => false
  | p :: ps, c :: cs => (p.toLower == c.toLower) && ciStartsWith ps cs

/-- Literal-prefix test, selecting case sensitivity. -/
def startsWithLit (ci : Bool) (pat cs : List Char) : Bool :=
  if ci then ciStartsWith pat cs else pat.isPrefixOf cs

/-- `name.replace(/\.[^/.]+$/, '')` (shared by `parseTrackName` and the
image-index builder): strip a trailing `.ext` where `ext` is a non-empty
run of characters other than `.` and `/`. -/
def stripExtension (cs : List Char) : List Char :=
  let rev := cs.reverse
  let ext := rev.takeWhile (fun c => !(c == '.') && !(c == '/'))
  match rev.drop ext.length with
  | '.' :: rest => if ext.isEmpty then cs else rest.reverse
  | _ => cs

/-! ## Track-name parser (src/utils/track.ts)

`parseTrackName` tries, in order, the regexes
`/^(.+?)\s*\(([^)]+)\)/`, `/^(.+?)\s*-\s*(.+)$/` and `/^(.+?)\s+by\s+(.+)$/i`
on the extension-stripped name.  The lazy `(.+?)` is realised by scanning
split points left to right (shortest title first); the tail matchers below
encode the backtracking behaviour of the remaining pattern at a fixed
split point. -/

/-- Match `\s*\(([^)]+)\)` at the start of `rest`: the `(` must be the
first non-whitespace character, and the capture is the non-empty run up to
the first `)`, which must be present. -/
def parenTail (rest : List Char) : Option (List Char) :=
  match rest.dropWhile jsWs with
  | '(' :: r =>
      let inside := r.takeWhile (fun c => !(c == ')'))
      match r.drop inside.length with
      | ')' :: _ => if inside.isEmpty then none else some inside
      | _ => none
  | _ => none

def parenSplitAux (acc : List Char) : List Char → Option (List Char × List Char)
  | [] => none
  | c :: rest =>
      match parenTail rest with
      | some inside => some ((c :: acc).reverse, inside)
      | none => parenSplitAux (c :: acc) rest

def parenSplit (cs : List Char) : Option (List Char × List Char) := parenSplitAux [] cs

/-- Match `\s*-\s*(.+)$` at the start of `rest`: the `-` must be the first
non-whitespace character; the trailing `\s*` gives one character back when
the greedy whitespace run would leave `(.+)` empty. -/
def dashTail (rest : List Char) : Option (List Char) :=
  match rest.dropWhile jsWs with
  | '-' :: r2 =>
      let r3 := r2.dropWhile jsWs
      if r3.isEmpty then
        if r2.isEmpty then none else some (r2.drop (r2.length - 1))
      else some r3
  | _ => none

def dashSplitAux (acc : List Char) : List Char → Option (List Char × List Char)
  | [] => none
  | c :: rest =>
      match dashTail rest with
      | some artist => some ((c :: acc).reverse, artist)
      | none => dashSplitAux (c :: acc) rest

def dashSplit (cs : List Char) : Option (List Char × List Char) := dashSplitAux [] cs

/-- Match `\s+by\s+(.+)$` (case-insensitive `by`) at the start of `rest`:
`by` sits at the end of the first whitespace run; after it a non-empty
whitespace run, whose last character is surrendered to `(.+)` when nothing
follows it. -/
def byTail (rest : List Char) : Option (List Char) :=
  let w := rest.takeWhile jsWs
  if w.isEmpty then none
  else
    match rest.drop w.length with
    | b :: y :: r2 =>
        if b.toLower == 'b' && y.toLower == 'y' then
          let w2 := r2.takeWhile jsWs
          if w2.isEmpty then none
          else
            let r3 := r2.drop w2.length
            if r3.isEmpty then
              if w2.length ≥ 2 then some (w2.drop (w2.length - 1)) else none
            else some r3
        else none
    | _ => none

def bySplitAux (acc : List Char) : List Char → Option (List Char × List Char)
  | [] => none
  | c :: rest =>
      match byTail rest with
      | some artist => some ((c :: acc).reverse, artist)
      | none => bySplitAux (c :: acc) rest

def bySplit (cs : List Char) : Option (List Char × List Char) := bySplitAux [] cs

structure ParsedTrackInfo where
  title : String
  artist : String
deriving DecidableEq, Repr

/-- `parseTrackName(name)` (src/utils/track.ts): strip the extension, try
`Title (Artist)`, then `Title - Artist`, then `Title by Artist`; on no
match the whole stripped name is the title and the artist is the
`'Local File'` sentinel. -/
def parseTrackName (name : String) : ParsedTrackInfo :=
  let nameWithoutExt := stripExtension name.data
  match parenSplit nameWithoutExt with
  | some (t, a) => ⟨String.mk (trimChars t), String.mk (trimChars a)⟩
  | none =>
    match dashSplit nameWithoutExt with
    | some (t, a) => ⟨String.mk (trimChars t), String.mk (trimChars a)⟩
    | none =>
      match bySplit nameWithoutExt with
      | some (t, a) => ⟨String.mk (trimChars t), String.mk (trimChars a)⟩
      | none => ⟨String.mk nameWithoutExt, "Local File"⟩

/-! ## Artist-Image Matcher (src/utils/track.ts, `matchArtistImages`) -/

/-- The `{id, name}` shape taken by `matchArtistImages`. -/
structure NamedFile where
  id : String
  name : String
deriving DecidableEq, Repr

/-- JS `Map.prototype.set` on a functional map. -/
def setKey {α : Type} (m : String → Option α) (k : String) (v : α) : String → Option α :=
  fun x => if x = k then some v else m x

def emptyMap {α : Type} : String → Option α := fun _ => none

/-- The image index: each image keyed by its extension-stripped, lower-cased
file name; for duplicate keys the later `set` wins, as in a JS `Map`. -/
def imageMapByName (imageFiles : List NamedFile) : String → Option String :=
  imageFiles.foldl
    (fun m image => setKey m (String.mk (lowerChars (stripExtension image.name.data))) image.id)
    emptyMap

/-- `matchArtistImages(audioFiles, imageFiles)`: look each audio file's
lower-cased parsed artist up in the image index; on a hit, record
`audio.id → image.id`. -/
def matchArtistImages (audioFiles imageFiles : List NamedFile) : String → Option String :=
  audioFiles.foldl
    (fun m audio =>
      match imageMapByName imageFiles
          (String.mk (lowerChars (parseTrackName audio.name).artist.data)) with
      | some imageId => setKey m audio.id imageId
      | none => m)
    emptyMap

/-! ## Time utilities (src/utils/time.ts) -/

def digitChar (d : Nat) : Char := Char.ofNat (48 + d)

/-- JS `Number.prototype.toString` on a natural number: decimal digits.
Structural recursion on a fuel argument (any fuel above the input is
enough, since the value shrinks by a factor of ten each step). -/
def natToCharsAux (fuel : Nat) (n : Nat) (acc : List Char) : List Char :=
  match fuel with
  | 0 => acc
  | fuel + 1 =>
      if n / 10 = 0 then digitChar (n % 10) :: acc
      else natToCharsAux fuel (n / 10) (digitChar (n % 10) :: acc)

def natToChars (n : Nat) : List Char := natToCharsAux (n + 1) n []

def charsToNat (ds : List Char) : Nat :=
  ds.foldl (fun a c => a * 10 + (c.toNat - 48)) 0

/-- JS `padStart(2, '0')`. -/
def padStart2Zero (cs : List Char) : List Char :=
  if cs.length ≥ 2 then cs else List.replicate (2 - cs.length) '0' ++ cs

/-- `formatDuration(seconds)` on a natural number of seconds.  The source
takes a JS number and floors `seconds/3600`, `(seconds%3600)/60` and
`seconds%60`; on natural inputs those floors are exact Nat division, and
the `!seconds` guard is `seconds = 0` (`Number.isFinite` always holds). -/
def formatDuration (seconds : Nat) : String :=
  if seconds = 0 then "0:00"
  else
    let hours := seconds / 3600
    let minutes := seconds % 3600 / 60
    let secs := seconds % 60
    if hours > 0 then
      String.mk (natToChars hours ++
        ':' :: (padStart2Zero (natToChars minutes) ++ ':' :: padStart2Zero (natToChars secs)))
    else
      String.mk (natToChars minutes ++ ':' :: padStart2Zero (natToChars secs))

/-- JS `String.prototype.split` on a single-character separator. -/
def splitOnChar (sep : Char) : List Char → List (List Char)
  | [] => [[]]
  | c :: t =>
      if c = sep then [] :: splitOnChar sep t
      else
        match splitOnChar sep t with
        | [] => [[c]]
        | h :: r => (c :: h) :: r

/-- JS `parseInt(s, 10)`: skip leading whitespace, optional sign, then the
maximal digit run; `none` is `NaN`. -/
def jsParseIntChars (cs : List Char) : Option Int :=
  let core : List Char → Option Nat := fun t =>
    let ds := t.takeWhile Char.isDigit
    if ds.isEmpty then none else some (charsToNat ds)
  match cs.dropWhile jsWs with
  | [] => none
  | c :: t =>
      if c = '-' then (core t).map (fun v => -(v : Int))
      else if c = '+' then (core t).map (fun v => (v : Int))
      else (core (c :: t)).map (fun v => (v : Int))

/-- `parseTimeString(timeString)`: split on `:`, `parseInt` each part;
`MM:SS` and `H:MM:SS` are summed (`none` = `NaN` propagates through the
arithmetic), anything else returns `0`. -/
def parseTimeString (timeString : String) : Option Int :=
  match (splitOnChar ':' timeString.data).map jsParseIntChars with
  | [some m, some s] => some (m * 60 + s)
  | [_, _] => none
  | [some h, some m, some s] => some (h * 3600 + m * 60 + s)
  | [_, _, _] => none
  | _ => some 0

/-! ## Duration cache (src/app/page.tsx, `preloadTrackDurations`) -/

/-- `getTrackCacheKey(track)`: content identity — `name-size` for local
files, the URL for remote tracks, the ephemeral id as a fallback. -/
def getTrackCacheKey (track : Track) : String :=
  match track.file with
  | some f => track.name ++ "-" ++ toString f.size
  | none =>
    match track.googleDriveUrl with
    | some u => u
    | none =>
      match track.url with
      | some u => u
      | none => track.id

/-- The `newDurations` map built from one probe batch: only strictly
positive durations are entered (`if (duration > 0)`). -/
def buildPositiveMap (batchResults : List (String × Rat)) : String → Option Rat :=
  batchResults.foldl
    (fun m r => if r.2 > 0 then setKey m r.1 r.2 else m) emptyMap

/-- The `setTrackDurations` merge after a probe batch: copy the previous
map and `set` every key of the batch's positive-duration map into it. -/
def mergeBatchDurations (prev : String → Option Rat)
    (batchResults : List (String × Rat)) : String → Option Rat :=
  fun k =>
    match buildPositiveMap batchResults k with
    | some v => some v
    | none => prev k

/-! ## Drive folder resolver (src/app/api/drive-folder/route.ts)

The `POST` handler is embedded from the point where the root listing's
`<tr data-id=...>` row fragments have been produced by the global row
regex: the row lists, the fallback attribute-pair scan's `(id, name)`
pairs, and the artist-subfolder row list are parameters, so every theorem
below quantifies over all values the scraping regexes could produce.
The per-row regexes are compiled by hand; each doc comment states the
regex and how its backtracking resolves. -/

def dataIdLit : List Char := "data-id=".data ++ [dq]
def strongOpenLit : List Char := "<strong".data
def strongCloseLit : List Char := "</strong>".data
def dataTitleLit : List Char := "data-title=".data ++ [dq]
def ariaLabelLit : List Char := "aria-label=".data ++ [dq]
def titleAttrLit : List Char := "title=".data ++ [dq]

/-- `row.match(/LIT"([^"]+)"/)` (leftmost match, first capture): at each
start position, the literal, then the non-empty quote-free run, then the
closing quote.  `ci` is the `/i` flag. -/
def captureAfterLit (ci : Bool) (lit : List Char) : List Char → Option (List Char)
  | [] => none
  | c :: t =>
      if startsWithLit ci lit (c :: t) then
        let r := (c :: t).drop lit.length
        let val := r.takeWhile (fun x => !(x == dq))
        match r.drop val.length with
        | q :: _ =>
            if q == dq && !val.isEmpty then some val
            else captureAfterLit ci lit t
        | [] => captureAfterLit ci lit t
      else captureAfterLit ci lit t

/-- `row.match(/<strong[^>]*>([^<]+)<\/strong>/i)`: `<strong`, a `>`-free
attribute run closed by `>`, a non-empty `<`-free capture, then
`</strong>`. -/
def matchStrongTag : List Char → Option (List Char)
  | [] => none
  | c :: t =>
      if ciStartsWith strongOpenLit (c :: t) then
        let r1 := (c :: t).drop strongOpenLit.length
        let attrs := r1.takeWhile (fun x => !(x == '>'))
        match r1.drop attrs.length with
        | '>' :: r3 =>
            let val := r3.takeWhile (fun x => !(x == '<'))
            if !val.isEmpty && ciStartsWith strongCloseLit (r3.drop val.length) then some val
            else matchStrongTag t
        | _ => matchStrongTag t
      else matchStrongTag t

/-- `row.match(/aria-label="[^"]*([^"]+)[^"]*"/i)`: the quote-free run
must be non-empty and closed by `"`; the greedy leading `[^"]*`
backtracks exactly one character, so the capture is the run's LAST
character. -/
def matchAriaLabelLast : List Char → Option (List Char)
  | [] => none
  | c :: t =>
      if ciStartsWith ariaLabelLit (c :: t) then
        let r := (c :: t).drop ariaLabelLit.length
        let val := r.takeWhile (fun x => !(x == dq))
        match r.drop val.length with
        | q :: _ =>
            if q == dq && !val.isEmpty then some (val.drop (val.length - 1))
            else matchAriaLabelLast t
        | [] => matchAriaLabelLast t
      else matchAriaLabelLast t

/-- `row.match(/data-id="([^"]+)"/)` — case-sensitive. -/
def extractDataId (row : List Char) : Option (List Char) :=
  captureAfterLit false dataIdLit row

/-- The folder-name pattern cascade (strong tag, `data-title`,
`aria-label`, `title`), first match wins; all four carry `/i`.  The
`title="` literal also fires inside a `data-title="` attribute, exactly as
the JS regex does. -/
def extractRowFolderName (row : List Char) : Option (List Char) :=
  match matchStrongTag row with
  | some v => some v
  | none =>
    match captureAfterLit true dataTitleLit row with
    | some v => some v
    | none =>
      match matchAriaLabelLast row with
      | some v => some v
      | none => captureAfterLit true titleAttrLit row

/-- `row.includes('folder') || row.includes('📁') || row.includes('folder-icon')`. -/
def isFolderRow (row : List Char) : Bool :=
  containsSub row "folder".data || containsSub row "📁".data ||
    containsSub row "folder-icon".data

/-- `folderName.toLowerCase().includes(cfg.toLowerCase())`. -/
def nameMatchesCfg (folderName : List Char) (cfg : String) : Bool :=
  containsSub (lowerChars folderName) (lowerChars cfg.data)

/-- One root row satisfies the tracks-subfolder search: it has a
`data-id`, carries a folder indicator, and its extracted name contains the
configured name case-insensitively. -/
def rowMatchesTracksFolder (cfg : String) (row : String) : Bool :=
  (extractDataId row.data).isSome &&
    isFolderRow row.data &&
    (match extractRowFolderName row.data with
     | some nm => nameMatchesCfg nm cfg
     | none => false)

/-- The tracks-subfolder search loop (route.ts lines 156–185): first
matching folder row's id wins. -/
def findTracksFolderId (cfg : String) : List String → Option String
  | [] => none
  | row :: rest =>
      match extractDataId row.data with
      | none => findTracksFolderId cfg rest
      | some folderId =>
          if isFolderRow row.data then
            match extractRowFolderName row.data with
            | some folderName =>
                if nameMatchesCfg folderName cfg then some (String.mk folderId)
                else findTracksFolderId cfg rest
            | none => findTracksFolderId cfg rest
          else findTracksFolderId cfg rest

/-- `Object.values(AudioExtension)` / `Object.values(ImageExtension)`
without the dots, as interpolated into the name regexes. -/
def audioExts : List (List Char) :=
  ["mp3".data, "wav".data, "ogg".data, "m4a".data, "flac".data]

def imageExts : List (List Char) :=
  ["jpg".data, "jpeg".data, "png".data, "gif".data, "webp".data, "bmp".data, "svg".data]

def allExts : List (List Char) := audioExts ++ imageExts

/-- `val` ends with `.ext` case-insensitively, with at least one character
before the dot (the `[^<]+` / `[^"]+` part of the anchored captures). -/
def ciEndsWithDotExt (val ext : List Char) : Bool :=
  let pat := '.' :: ext
  pat.length < val.length && ciStartsWith pat (val.drop (val.length - pat.length))

def hasAllowedExt (exts : List (List Char)) (val : List Char) : Bool :=
  exts.any (fun ext => ciEndsWithDotExt val ext)

/-- Extension-anchored strong-tag pattern
`/<strong[^>]*>([^<]+\.(EXTS))<\/strong>/i`: the `<`-free run must end in
an allowed extension and be followed by `</strong>`. -/
def matchStrongTagExt (exts : List (List Char)) : List Char → Option (List Char)
  | [] => none
  | c :: t =>
      if ciStartsWith strongOpenLit (c :: t) then
        let r1 := (c :: t).drop strongOpenLit.length
        let attrs := r1.takeWhile (fun x => !(x == '>'))
        match r1.drop attrs.length with
        | '>' :: r3 =>
            let val := r3.takeWhile (fun x => !(x == '<'))
            if hasAllowedExt exts val && ciStartsWith strongCloseLit (r3.drop val.length)
            then some val
            else matchStrongTagExt exts t
        | _ => matchStrongTagExt exts t
      else matchStrongTagExt exts t

/-- Extension-anchored attribute pattern `/LIT"([^"]+\.(EXTS))"/i`: the
whole quote-free run must end in an allowed extension. -/
def captureAfterLitExt (exts : List (List Char)) (lit : List Char) :
    List Char → Option (List Char)
  | [] => none
  | c :: t =>
      if ciStartsWith lit (c :: t) then
        let r := (c :: t).drop lit.length
        let val := r.takeWhile (fun x => !(x == dq))
        match r.drop val.length with
        | q :: _ =>
            if q == dq && hasAllowedExt exts val then some val
            else captureAfterLitExt exts lit t
        | [] => captureAfterLitExt exts lit t
      else captureAfterLitExt exts lit t

/-- The regex alternation `\.(e1|e2|...)` tried in order at the head of
`r` (after the dot); returns the matched extension's length so the capture
keeps the original characters. -/
def extAltAt (exts : List (List Char)) (r : List Char) : Option Nat :=
  match r with
  | '.' :: rest => (exts.find? (fun ext => ciStartsWith ext rest)).map List.length
  | _ => none

/-- Inside the quote-free run of
`/aria-label="[^"]*([^"]+\.(EXTS))[^"]*"/i`, the greedy leading `[^"]*`
maximises its take, so the capture starts one character before the LAST
dot at which the extension alternation matches, and the greedy `[^"]+`
inside the capture then ends it right after that same extension:
one character, the dot, and the matched extension. -/
def ariaCaptureAux (exts : List (List Char)) (acc : Option (List Char)) :
    List Char → Option (List Char)
  | a :: '.' :: rest =>
      let acc' :=
        match extAltAt exts ('.' :: rest) with
        | some extLen => some (a :: '.' :: rest.take extLen)
        | none => acc
      ariaCaptureAux exts acc' ('.' :: rest)
  | _ :: rest => ariaCaptureAux exts acc rest
  | [] => acc

def matchAriaLabelExt (exts : List (List Char)) : List Char → Option (List Char)
  | [] => none
  | c :: t =>
      if ciStartsWith ariaLabelLit (c :: t) then
        let r := (c :: t).drop ariaLabelLit.length
        let val := r.takeWhile (fun x => !(x == dq))
        match r.drop val.length with
        | q :: _ =>
            if q == dq then
              match ariaCaptureAux exts none val with
              | some cap => some cap
              | none => matchAriaLabelExt exts t
            else matchAriaLabelExt exts t
        | [] => matchAriaLabelExt exts t
      else matchAriaLabelExt exts t

/-- The file-name pattern cascade of the extraction loops (strong tag,
`data-title`, `aria-label`, `title`, all extension-anchored and `/i`). -/
def extractFileName (exts : List (List Char)) (row : List Char) : Option (List Char) :=
  match matchStrongTagExt exts row with
  | some v => some v
  | none =>
    match captureAfterLitExt exts dataTitleLit row with
    | some v => some v
    | none =>
      match matchAriaLabelExt exts row with
      | some v => some v
      | none => captureAfterLitExt exts titleAttrLit row

/-- `fileName.toLowerCase().endsWith(ext)` over the audio-extension enum
(enum values carry the dot). -/
def isAudioName (name : List Char) : Bool :=
  audioExts.any (fun ext => ('.' :: ext).isSuffixOf (lowerChars name))

def isImageName (name : List Char) : Bool :=
  imageExts.any (fun ext => ('.' :: ext).isSuffixOf (lowerChars name))

/-- One produced entry: `type` is absent on fallback-extracted entries;
`source` is present only on artist-subfolder images. -/
structure DriveFile where
  id : String
  name : String
  type : Option String
  source : Option String
deriving DecidableEq, Repr

/-- One iteration of the primary extraction loop (route.ts lines 218–258):
the accumulator is `(files, seenIds)`. -/
def primaryStep (acc : List DriveFile × List String) (row : String) :
    List DriveFile × List String :=
  match extractDataId row.data with
  | none => acc
  | some fileId =>
      let fid := String.mk fileId
      match extractFileName allExts row.data with
      | none => acc
      | some fileName =>
          let isAudio := isAudioName fileName
          let isImage := isImageName fileName
          if (isAudio || isImage) && !(acc.2.contains fid) then
            (acc.1 ++ [⟨fid, String.mk fileName,
                some (if isAudio then "audio" else "image"), none⟩],
              acc.2 ++ [fid])
          else acc

/-- One iteration of the fallback attribute-pair loop (lines 266–276):
accepts a pair when the id is unseen and the name is non-empty after
trimming; pushes the trimmed name without a `type`. -/
def fallbackStep (acc : List DriveFile × List String) (pair : String × String) :
    List DriveFile × List String :=
  if !(acc.2.contains pair.1) && !pair.2.isEmpty &&
      !(trimChars pair.2.data).isEmpty then
    (acc.1 ++ [⟨pair.1, String.mk (trimChars pair.2.data), none, none⟩], acc.2 ++ [pair.1])
  else acc

/-- One iteration of the artist-subfolder image loop (lines 306–339). -/
def artistStep (acc : List DriveFile × List String) (row : String) :
    List DriveFile × List String :=
  match extractDataId row.data with
  | none => acc
  | some fileId =>
      let fid := String.mk fileId
      match extractFileName imageExts row.data with
      | none => acc
      | some fileName =>
          if isImageName fileName && !(acc.2.contains fid) then
            (acc.1 ++ [⟨fid, String.mk fileName, some "image", some "artist-subfolder"⟩],
              acc.2 ++ [fid])
          else acc

/-- The three extraction passes over one shared `seenIds` set: the primary
row pass, the fallback pass (only when the primary produced nothing), and
the artist-subfolder image pass appended at the end. -/
def collectFiles (rows : List String) (fallbackPairs : List (String × String))
    (artistRows : List String) : List DriveFile :=
  let acc1 := rows.foldl primaryStep ([], [])
  let acc2 := if acc1.1.length = 0 then fallbackPairs.foldl fallbackStep acc1 else acc1
  (artistRows.foldl artistStep acc2).1

/-- The JSON response shape `{error?, files, folderName}`. -/
structure DriveResponse where
  error : Option String
  files : List DriveFile
  folderName : String
deriving DecidableEq, Repr

def tracksNotFoundMsg (cfg : String) : String :=
  "Tracks folder \"" ++ cfg ++
    "\" not found. Please create the folder or check your NEXT_PUBLIC_TRACKS_FOLDER configuration."

def subfolderAccessMsg (cfg : String) : String :=
  "Failed to access \"" ++ cfg ++ "\" subfolder. Make sure the folder exists and is shared publicly."

def noFilesMsg : String := "No files found in folder or folder not publicly accessible"

/-- The `POST` handler from the tracks-subfolder decision onwards (route.ts
lines 152–363).  `fetchTracksSub` is the `fetchTracksFromSubfolder`
collaborator (`none` = fetch failed); `artistRows` is the artist-subfolder
row list when that fetch happened and succeeded, `[]` otherwise (skipping
the loop, as the code does).  `CONFIG.TRACKS_FOLDER && trim() !== ''` is
string truthiness plus the trim check (JS `trim` is `trimChars`). -/
def drivePost (cfgTracks folderName : String) (rootRows : List String)
    (fetchTracksSub : String → Option (List String))
    (fallbackPairs : List (String × String)) (artistRows : List String) : DriveResponse :=
  let finish : List DriveFile → DriveResponse := fun files =>
    if files.length = 0 then ⟨some noFilesMsg, [], folderName⟩
    else ⟨none, files, folderName⟩
  if cfgTracks ≠ "" ∧ String.mk (trimChars cfgTracks.data) ≠ "" then
    match findTracksFolderId cfgTracks rootRows with
    | none => ⟨some (tracksNotFoundMsg cfgTracks), [], folderName⟩
    | some tracksFolderId =>
        match fetchTracksSub tracksFolderId with
        | none => ⟨some (subfolderAccessMsg cfgTracks), [], folderName⟩
        | some subRows => finish (collectFiles subRows fallbackPairs artistRows)
  else finish (collectFiles rootRows fallbackPairs artistRows)

/-! ## Helper lemmas on the queue generator and `jsGet` -/

theorem permFn_id : PermFn id := fun l => List.Perm.refl l

theorem jsGet_mem : ∀ {l : List Nat} {i : Nat}, i < l.length → jsGet l i ∈ l := by
  intro l
  induction l with
  | nil => intro i h; simp at h
  | cons a t ih =>
      intro i h
      cases i with
      | zero => simp [jsGet]
      | succ j =>
          have : jsGet (a :: t) (j + 1) = jsGet t j := by simp [jsGet]
          rw [this]
          exact List.mem_cons_of_mem _ (ih (by simpa using Nat.lt_of_succ_lt_succ h))

theorem drop_eq_jsGet_cons : ∀ {l : List Nat} {i : Nat}, i < l.length →
    l.drop i = jsGet l i :: l.drop (i + 1) := by
  intro l
  induction l with
  | nil => intro i h; simp at h
  | cons a t ih =>
      intro i h
      cases i with
      | zero => simp [jsGet]
      | succ j =>
          have h' : j < t.length := by simpa using Nat.lt_of_succ_lt_succ h
          have : jsGet (a :: t) (j + 1) = jsGet t j := by simp [jsGet]
          simpa [this] using ih h'

theorem mem_generateShuffleQueue (σ : List Nat → List Nat) (hσ : PermFn σ)
    (tracks : List Track) (excl recent : List Nat) (m : Nat) {x : Nat}
    (hx : x ∈ generateShuffleQueue σ tracks excl recent m) :
    x ∈ List.range tracks.length ∧ excl.contains x = false := by
  unfold generateShuffleQueue at hx
  rw [List.Perm.mem_iff (hσ _)] at hx
  split at hx
  · dsimp only at hx
    split at hx
    · exact List.mem_filter.mp hx |>.imp_right (by simp)
    · have := (List.mem_filter.mp hx).1
      exact List.mem_filter.mp this |>.imp_right (by simp)
  · exact List.mem_filter.mp hx |>.imp_right (by simp)

theorem nodup_generateShuffleQueue (σ : List Nat → List Nat) (hσ : PermFn σ)
    (tracks : List Track) (excl recent : List Nat) (m : Nat) :
    (generateShuffleQueue σ tracks excl recent m).Nodup := by
  unfold generateShuffleQueue
  rw [List.Perm.nodup_iff (hσ _)]
  split
  · dsimp only
    split
    · exact (List.nodup_range _).filter _
    · exact ((List.nodup_range _).filter _).filter _
  · exact (List.nodup_range _).filter _

theorem length_generateShuffleQueue_ne_zero (σ : List Nat → List Nat) (hσ : PermFn σ)
    (tracks : List Track) (excl recent : List Nat) (m : Nat)
    (h : ((List.range tracks.length).filter
          (fun index => !(excl.contains index))).length ≠ 0) :
    (generateShuffleQueue σ tracks excl recent m).length ≠ 0 := by
  unfold generateShuffleQueue
  rw [List.Perm.length_eq (hσ _)]
  split
  · dsimp only
    split
    · exact h
    · omega
  · exact h

theorem avail_excl_single_ne_zero (n c : Nat) (hn : 2 ≤ n) :
    ((List.range n).filter (fun index => !([c].contains index))).length ≠ 0 := by
  have hx : ∃ x, x ∈ (List.range n).filter (fun index => !([c].contains index)) := by
    by_cases hc : c = 0
    · exact ⟨1, List.mem_filter.mpr ⟨by rw [List.mem_range]; omega, by subst hc; decide⟩⟩
    · refine ⟨0, List.mem_filter.mpr ⟨by rw [List.mem_range]; omega, ?_⟩⟩
      simp only [List.contains_cons, List.contains_nil, Bool.or_false, Bool.not_eq_true',
        beq_eq_false_iff_ne, ne_eq]
      omega
  obtain ⟨x, hx⟩ := hx
  intro hlen
  exact List.ne_nil_of_mem hx (List.length_eq_zero.mp hlen)

theorem filter_bne_ne_zero (n c : Nat) (hn : 2 ≤ n) :
    ((List.range n).filter (fun index => index != c)).length ≠ 0 := by
  have hx : ∃ x, x ∈ (List.range n).filter (fun index => index != c) := by
    by_cases hc : c = 0
    · exact ⟨1, List.mem_filter.mpr ⟨by rw [List.mem_range]; omega, by subst hc; decide⟩⟩
    · refine ⟨0, List.mem_filter.mpr ⟨by rw [List.mem_range]; omega, ?_⟩⟩
      simp only [bne_iff_ne, ne_eq]
      omega
  obtain ⟨x, hx⟩ := hx
  intro hlen
  exact List.ne_nil_of_mem hx (List.length_eq_zero.mp hlen)

theorem shuffleInv_createInitial (σ : List Nat → List Nat) (hσ : PermFn σ)
    (tracks : List Track) (c : Nat) :
    ShuffleInv c (createInitialShuffleState σ tracks c) := by
  unfold createInitialShuffleState
  split
  · exact ⟨List.nodup_nil, by simp⟩
  · refine ⟨nodup_generateShuffleQueue σ hσ tracks _ _ _, ?_⟩
    intro hc
    have := (mem_generateShuffleQueue σ hσ tracks _ _ _ (by simpa using hc)).2
    simp at this

theorem shuffleInv_manualSelect (σ : List Nat → List Nat) (hσ : PermFn σ)
    (tracks : List Track) (i : Nat) (s : ShuffleState) :
    ShuffleInv i (handleManualTrackSelection σ tracks i s) := by
  refine ⟨nodup_generateShuffleQueue σ hσ tracks _ _ _, ?_⟩
  intro hc
  have := (mem_generateShuffleQueue σ hσ tracks _ _ _ (by simpa using hc)).2
  simp at this

theorem getNext_ne_and_inv (σ : List Nat → List Nat) (hσ : PermFn σ)
    (tracks : List Track) (c c' : Nat) (s s' : ShuffleState)
    (hinv : ShuffleInv c s)
    (h : getNextShuffleTrack σ tracks c s = some (c', s')) :
    c' ≠ c ∧ ShuffleInv c' s' := by
  unfold getNextShuffleTrack at h
  split at h
  · exact absurd h (by simp)
  · split at h
    · exact absurd h (by simp)
    · rename_i h0 h1
      have hlen2 : 2 ≤ tracks.length := by omega
      split at h
      · -- regeneration branch
        set newQueue := generateShuffleQueue σ tracks [c] s.recentlyPlayed 2 with hq
        have hne : newQueue.length ≠ 0 :=
          length_generateShuffleQueue_ne_zero σ hσ tracks _ _ _
            (avail_excl_single_ne_zero _ c hlen2)
        have hnotc : ∀ x ∈ newQueue, x ≠ c := by
          intro x hx hxc
          have := (mem_generateShuffleQueue σ hσ tracks _ _ _ hx).2
          subst hxc
          simp at this
        obtain ⟨rfl, rfl⟩ : c' = jsGet newQueue 0 ∧
            s' = ⟨newQueue, 1, updateRecentlyPlayed s.recentlyPlayed c 5⟩ := by
          have hs := h.symm
          simp only [Option.some.injEq, Prod.mk.injEq] at hs
          exact hs
        have hmem : jsGet newQueue 0 ∈ newQueue := jsGet_mem (by omega)
        refine ⟨hnotc _ hmem, nodup_generateShuffleQueue σ hσ tracks _ _ _, ?_⟩
        rcases hq' : newQueue with _ | ⟨x, t⟩
        · simp [hq'] at hne
        · have hx0 : jsGet newQueue 0 = x := by rw [hq']; simp [jsGet]
          have hnd : newQueue.Nodup := nodup_generateShuffleQueue σ hσ tracks _ _ _
          rw [hq'] at hnd
          simp only [hx0, hq', List.drop_succ_cons, List.drop_zero]
          exact (List.nodup_cons.mp hnd).1
      · -- serve branch
        rename_i hcond
        push_neg at hcond
        have hqi : s.queueIndex < s.queue.length := hcond.2
        obtain ⟨rfl, rfl⟩ : c' = jsGet s.queue s.queueIndex ∧
            s' = ⟨s.queue, s.queueIndex + 1, updateRecentlyPlayed s.recentlyPlayed c 5⟩ := by
          have hs := h.symm
          simp only [Option.some.injEq, Prod.mk.injEq] at hs
          exact hs
        have hdrop := drop_eq_jsGet_cons hqi
        have hc : c ∉ s.queue.drop s.queueIndex := hinv.2
        rw [hdrop] at hc
        refine ⟨fun heq => hc (by rw [heq]; exact List.mem_cons_self _ _), hinv.1, ?_⟩
        have hnd : (s.queue.drop s.queueIndex).Nodup :=
          List.Nodup.sublist (List.drop_sublist _ _) hinv.1
        rw [hdrop] at hnd
        exact (List.nodup_cons.mp hnd).1

theorem noPrevReachable_inv (tracks : List Track) :
    ∀ p : Nat × ShuffleState, NoPrevShuffleReachable tracks p → ShuffleInv p.1 p.2 := by
  intro p h
  induction h with
  | enable σ hσ c => exact shuffleInv_createInitial σ hσ tracks c
  | next σ hσ c c' s s' _ hstep ih => exact (getNext_ne_and_inv σ hσ tracks c c' s s' ih hstep).2
  | select σ hσ c i s _ _ => exact shuffleInv_manualSelect σ hσ tracks i s

/-- C1, counterexample: the claim as stated is false.  With two tracks,
toggle shuffle on at index 0 (queue `[1]`), call `next()` (now at index 1,
pointer 1), call `prev()` (pointer back to 0, still at index 1): the state
`(1, ⟨[1], 0, [0, 0]⟩)` is reachable, and the following `next()` serves
`queue[0] = 1`, equal to the current index. -/
theorem c1_counterexample :
    ¬ (∀ (tracks : List Track) (c : Nat) (s : ShuffleState) (σ : List Nat → List Nat),
        1 < tracks.length → PermFn σ → ShuffleReachable tracks (c, s) →
        ∀ c' s', getNextShuffleTrack σ tracks c s = some (c', s') → c' ≠ c) := by
  intro hclaim
  have h0 := @ShuffleReachable.enable sampleTracks id permFn_id 0
  have he : createInitialShuffleState id sampleTracks 0 = ⟨[1], 0, [0]⟩ := by decide
  rw [he] at h0
  have h1 : ShuffleReachable sampleTracks (1, ⟨[1], 1, [0, 0]⟩) :=
    ShuffleReachable.next id permFn_id 0 1 ⟨[1], 0, [0]⟩ ⟨[1], 1, [0, 0]⟩ h0 (by decide)
  have h2 : ShuffleReachable sampleTracks (1, ⟨[1], 0, [0, 0]⟩) :=
    ShuffleReachable.prev id permFn_id 1 1 ⟨[1], 1, [0, 0]⟩ ⟨[1], 0, [0, 0]⟩ h1 (by decide)
  exact hclaim sampleTracks 1 ⟨[1], 0, [0, 0]⟩ id (by decide) permFn_id h2
    1 ⟨[1], 1, [0, 0, 1]⟩ (by decide) rfl

/-- C1 (amended): in Shuffled mode with more than one track,
`getNextShuffleTrack` returns an index different from the current index in
every shuffle state reachable via enabling shuffle, `next()` steps and
manual selection — but not after `prev()` steps, which can rewind the queue
pointer onto the entry serving the current index. -/
theorem c1_shuffled_next_ne_current_no_prev :
    ∀ (tracks : List Track) (c : Nat) (s : ShuffleState) (σ : List Nat → List Nat),
      1 < tracks.length → PermFn σ → NoPrevShuffleReachable tracks (c, s) →
      ∀ c' s', getNextShuffleTrack σ tracks c s = some (c', s') → c' ≠ c := by
  intro tracks c s σ _ hσ hreach c' s' hstep
  exact (getNext_ne_and_inv σ hσ tracks c c' s s'
    (noPrevReachable_inv tracks (c, s) hreach) hstep).1

theorem c1_witness :
    1 < sampleTracks.length ∧ PermFn id ∧
    NoPrevShuffleReachable sampleTracks (0, ⟨[1], 0, [0]⟩) ∧
    getNextShuffleTrack id sampleTracks 0 ⟨[1], 0, [0]⟩ = some (1, ⟨[1], 1, [0, 0]⟩) ∧
    (1 : Nat) ≠ 0 := by
  have h0 := @NoPrevShuffleReachable.enable sampleTracks id permFn_id 0
  have he : createInitialShuffleState id sampleTracks 0 = ⟨[1], 0, [0]⟩ := by decide
  rw [he] at h0
  exact ⟨by decide, permFn_id, h0, by decide,
    c1_shuffled_next_ne_current_no_prev sampleTracks 0 ⟨[1], 0, [0]⟩ id (by decide)
      permFn_id h0 1 ⟨[1], 1, [0, 0]⟩ (by decide)⟩

/-- C5: for a track list of exactly one track, the shuffle step functions
return `null`, and `next()`/`prev()` leave `currentIndex` unchanged in every
mode (any combination of `isShuffled`/`isRepeated`). -/
theorem c5_single_track_noop :
    ∀ (σ : List Nat → List Nat) (st : PageState),
      st.tracks.length = 1 → st.currentIndex < st.tracks.length →
      getNextShuffleTrack σ st.tracks st.currentIndex st.shuffleState = none ∧
      getPrevShuffleTrack σ st.tracks st.currentIndex st.shuffleState = none ∧
      (handleNext σ st).currentIndex = st.currentIndex ∧
      (handlePrev σ st).currentIndex = st.currentIndex := by
  intro σ st h1 hc
  have hc0 : st.currentIndex = 0 := by omega
  have hnext : getNextShuffleTrack σ st.tracks st.currentIndex st.shuffleState = none := by
    unfold getNextShuffleTrack
    rw [if_neg (by omega), if_pos h1]
  have hprev : getPrevShuffleTrack σ st.tracks st.currentIndex st.shuffleState = none := by
    unfold getPrevShuffleTrack
    rw [if_neg (by omega), if_pos h1]
  refine ⟨hnext, hprev, ?_, ?_⟩
  · unfold handleNext
    rw [if_neg (by omega)]
    by_cases hs : st.isShuffled
    · rw [if_pos hs, hnext]
    · rw [if_neg hs]
      simp [h1, hc0]
  · unfold handlePrev
    rw [if_neg (by omega)]
    by_cases hs : st.isShuffled
    · rw [if_pos hs, hprev]
    · rw [if_neg hs]
      simp [h1, hc0]

theorem c5_witness :
    singleTrackState.tracks.length = 1 ∧
    singleTrackState.currentIndex < singleTrackState.tracks.length ∧
    (getNextShuffleTrack id singleTrackState.tracks singleTrackState.currentIndex
        singleTrackState.shuffleState = none ∧
      getPrevShuffleTrack id singleTrackState.tracks singleTrackState.currentIndex
        singleTrackState.shuffleState = none ∧
      (handleNext id singleTrackState).currentIndex = singleTrackState.currentIndex ∧
      (handlePrev id singleTrackState).currentIndex = singleTrackState.currentIndex) :=
  ⟨by decide, by decide, c5_single_track_noop id singleTrackState (by decide) (by decide)⟩

/-- C9: for at least two tracks and any shuffle state with in-range queue
entries and `queueIndex ≤ queue.length`, both step functions return a
result whose index is a valid track index; with fewer than two tracks both
return `null`. -/
theorem c9_shuffle_step_range :
    ∀ (σ : List Nat → List Nat), PermFn σ →
    ∀ (tracks : List Track) (c : Nat) (s : ShuffleState),
      ((∀ i ∈ s.queue, i < tracks.length) → s.queueIndex ≤ s.queue.length →
        2 ≤ tracks.length →
        (∃ nx st', getNextShuffleTrack σ tracks c s = some (nx, st') ∧ nx < tracks.length) ∧
        (∃ pv st', getPrevShuffleTrack σ tracks c s = some (pv, st') ∧ pv < tracks.length)) ∧
      (tracks.length < 2 →
        getNextShuffleTrack σ tracks c s = none ∧ getPrevShuffleTrack σ tracks c s = none) := by
  intro σ hσ tracks c s
  constructor
  · intro hq hqi hlen
    constructor
    · unfold getNextShuffleTrack
      rw [if_neg (by omega), if_neg (by omega)]
      by_cases hcond : s.queue.length = 0 ∨ s.queueIndex ≥ s.queue.length
      · rw [if_pos hcond]
        dsimp only
        refine ⟨_, _, rfl, ?_⟩
        have hne : (generateShuffleQueue σ tracks [c] s.recentlyPlayed 2).length ≠ 0 :=
          length_generateShuffleQueue_ne_zero σ hσ tracks _ _ _
            (avail_excl_single_ne_zero _ c hlen)
        have hmem :=
          @jsGet_mem (generateShuffleQueue σ tracks [c] s.recentlyPlayed 2) 0 (by omega)
        have hrange := (mem_generateShuffleQueue σ hσ tracks _ _ _ hmem).1
        rwa [List.mem_range] at hrange
      · rw [if_neg hcond]
        push_neg at hcond
        dsimp only
        exact ⟨_, _, rfl, hq _ (jsGet_mem hcond.2)⟩
    · unfold getPrevShuffleTrack
      rw [if_neg (by omega), if_neg (by omega)]
      by_cases hpos : s.queueIndex > 0
      · rw [if_pos hpos]
        exact ⟨_, _, rfl, hq _ (jsGet_mem (by omega))⟩
      · rw [if_neg hpos]
        dsimp only
        refine ⟨_, _, rfl, ?_⟩
        have hlq : (σ ((List.range tracks.length).filter fun index => index != c)).length
            = ((List.range tracks.length).filter fun index => index != c).length :=
          (hσ _).length_eq
        have hne : (σ ((List.range tracks.length).filter fun index => index != c)).length ≠ 0 := by
          rw [hlq]; exact filter_bne_ne_zero _ c hlen
        have hmem :=
          @jsGet_mem (σ ((List.range tracks.length).filter fun index => index != c))
            ((σ ((List.range tracks.length).filter fun index => index != c)).length - 1)
            (by omega)
        have hmem' := (List.Perm.mem_iff (hσ _)).mp hmem
        have hrange := (List.mem_filter.mp hmem').1
        rwa [List.mem_range] at hrange
  · intro hlt
    constructor
    · unfold getNextShuffleTrack
      by_cases h0 : tracks.length = 0
      · rw [if_pos h0]
      · rw [if_neg h0, if_pos (by omega)]
    · unfold getPrevShuffleTrack
      by_cases h0 : tracks.length = 0
      · rw [if_pos h0]
      · rw [if_neg h0, if_pos (by omega)]

theorem c9_witness :
    ((∀ i ∈ ([1] : List Nat), i < sampleTracks.length) ∧ (0 : Nat) ≤ 1 ∧ 2 ≤ sampleTracks.length ∧
      ((∃ nx st', getNextShuffleTrack id sampleTracks 0 ⟨[1], 0, []⟩ = some (nx, st') ∧
          nx < sampleTracks.length) ∧
        (∃ pv st', getPrevShuffleTrack id sampleTracks 0 ⟨[1], 0, []⟩ = some (pv, st') ∧
          pv < sampleTracks.length))) ∧
    (([⟨"t0", "Solo.mp3", none, none, none⟩] : List Track).length < 2 ∧
      getNextShuffleTrack id [⟨"t0", "Solo.mp3", none, none, none⟩] 0 ⟨[], 0, []⟩ = none ∧
      getPrevShuffleTrack id [⟨"t0", "Solo.mp3", none, none, none⟩] 0 ⟨[], 0, []⟩ = none) := by
  constructor
  · exact ⟨by decide, by decide, by decide,
      (c9_shuffle_step_range id permFn_id sampleTracks 0 ⟨[1], 0, []⟩).1
        (by decide) (by decide) (by decide)⟩
  · exact ⟨by decide,
      (c9_shuffle_step_range id permFn_id [⟨"t0", "Solo.mp3", none, none, none⟩] 0
        ⟨[], 0, []⟩).2 (by decide)⟩

/-! ## Mode-flag helper lemmas (the navigation operations never change
`isShuffled`/`isRepeated`) -/

theorem handleNext_flags (σ : List Nat → List Nat) (st : PageState) :
    (handleNext σ st).isShuffled = st.isShuffled ∧
    (handleNext σ st).isRepeated = st.isRepeated := by
  unfold handleNext
  split
  · exact ⟨rfl, rfl⟩
  · split
    · split <;> exact ⟨rfl, rfl⟩
    · exact ⟨rfl, rfl⟩

theorem handlePrev_flags (σ : List Nat → List Nat) (st : PageState) :
    (handlePrev σ st).isShuffled = st.isShuffled ∧
    (handlePrev σ st).isRepeated = st.isRepeated := by
  unfold handlePrev
  split
  · exact ⟨rfl, rfl⟩
  · split
    · split <;> exact ⟨rfl, rfl⟩
    · exact ⟨rfl, rfl⟩

theorem handleSelectTrack_flags (σ : List Nat → List Nat) (st : PageState) (i : Nat) :
    (handleSelectTrack σ st i).isShuffled = st.isShuffled ∧
    (handleSelectTrack σ st i).isRepeated = st.isRepeated := by
  unfold handleSelectTrack
  split <;> exact ⟨rfl, rfl⟩

/-- C8: `isShuffled` and `isRepeated` are never both `true` in any reachable
state, and the toggle operations behave as specified: enabling Shuffled
clears Repeated and regenerates the shuffle state, enabling Repeated clears
Shuffled and resets the shuffle state, and disabling Shuffled resets the
shuffle state. -/
theorem c8_mode_flags_exclusive :
    (∀ st : PageState, PageReach st → st.isShuffled = false ∨ st.isRepeated = false) ∧
    (∀ (σ : List Nat → List Nat) (st : PageState), st.isShuffled = false →
      (handleShuffleToggle σ st).isShuffled = true ∧
      (handleShuffleToggle σ st).isRepeated = false ∧
      (handleShuffleToggle σ st).shuffleState =
        createInitialShuffleState σ st.tracks st.currentIndex) ∧
    (∀ st : PageState, st.isRepeated = false →
      (handleRepeatToggle st).isRepeated = true ∧
      (handleRepeatToggle st).isShuffled = false ∧
      (handleRepeatToggle st).shuffleState = resetShuffleState) ∧
    (∀ (σ : List Nat → List Nat) (st : PageState), st.isShuffled = true →
      (handleShuffleToggle σ st).isShuffled = false ∧
      (handleShuffleToggle σ st).shuffleState = resetShuffleState) := by
  refine ⟨?_, ?_, ?_, ?_⟩
  · intro st h
    induction h with
    | init => left; rfl
    | shuffleToggle σ st _ _ =>
        cases hs : st.isShuffled
        · right; simp [handleShuffleToggle, hs]
        · left; simp [handleShuffleToggle, hs]
    | repeatToggle st _ _ =>
        cases hr : st.isRepeated
        · left; simp [handleRepeatToggle, hr]
        · right; simp [handleRepeatToggle, hr]
    | next σ st _ ih =>
        rw [(handleNext_flags σ st).1, (handleNext_flags σ st).2]; exact ih
    | prev σ st _ ih =>
        rw [(handlePrev_flags σ st).1, (handlePrev_flags σ st).2]; exact ih
    | select σ st i _ ih =>
        rw [(handleSelectTrack_flags σ st i).1, (handleSelectTrack_flags σ st i).2]; exact ih
    | load st picked _ ih => exact ih
  · intro σ st hs
    refine ⟨?_, ?_, ?_⟩ <;> simp [handleShuffleToggle, hs]
  · intro st hr
    refine ⟨?_, ?_, ?_⟩ <;> simp [handleRepeatToggle, hr]
  · intro σ st hs
    refine ⟨?_, ?_⟩ <;> simp [handleShuffleToggle, hs]

theorem c8_witness :
    (initialPageState.isShuffled = false ∨ initialPageState.isRepeated = false) ∧
    ((handleShuffleToggle id initialPageState).isShuffled = true ∧
      (handleShuffleToggle id initialPageState).isRepeated = false ∧
      (handleShuffleToggle id initialPageState).shuffleState =
        createInitialShuffleState id initialPageState.tracks initialPageState.currentIndex) :=
  ⟨c8_mode_flags_exclusive.1 initialPageState PageReach.init,
    c8_mode_flags_exclusive.2.1 id initialPageState (by decide)⟩

/-- C4: the four specified round-trip examples of the track-name parser. -/
theorem c4_parse_track_name_examples :
    parseTrackName "Moonlight (Debussy).mp3" = ⟨"Moonlight", "Debussy"⟩ ∧
    parseTrackName "Clair de Lune - Debussy.flac" = ⟨"Clair de Lune", "Debussy"⟩ ∧
    parseTrackName "Respire by Mylene.wav" = ⟨"Respire", "Mylene"⟩ ∧
    parseTrackName "untitled.mp3" = ⟨"untitled", "Local File"⟩ := by
  refine ⟨?_, ?_, ?_, ?_⟩ <;> decide

/-! ## Duration-cache merge lemmas -/

theorem buildPositiveMap_foldl_unchanged (k : String) :
    ∀ (results : List (String × Rat)) (m : String → Option Rat),
      (∀ r ∈ results, r.1 = k → r.2 = 0) →
      (results.foldl (fun m r => if r.2 > 0 then setKey m r.1 r.2 else m) m) k = m k := by
  intro results
  induction results with
  | nil => intro m _; rfl
  | cons r t ih =>
      intro m h
      simp only [List.foldl_cons]
      rw [ih _ (fun x hx => h x (List.mem_cons_of_mem _ hx))]
      by_cases hpos : r.2 > 0
      · rw [if_pos hpos]
        have hne : r.1 ≠ k := by
          intro he
          have h0 := h r (List.mem_cons_self _ _) he
          rw [h0] at hpos
          exact lt_irrefl _ hpos
        unfold setKey
        rw [if_neg (fun he => hne he.symm)]
      · rw [if_neg hpos]

theorem buildPositiveMap_foldl_source (k : String) (v : Rat) :
    ∀ (results : List (String × Rat)) (m : String → Option Rat),
      (results.foldl (fun m r => if r.2 > 0 then setKey m r.1 r.2 else m) m) k = some v →
      m k = some v ∨ ((k, v) ∈ results ∧ 0 < v) := by
  intro results
  induction results with
  | nil => intro m h; exact Or.inl h
  | cons r t ih =>
      intro m h
      simp only [List.foldl_cons] at h
      rcases ih _ h with h' | h'
      · by_cases hpos : r.2 > 0
        · rw [if_pos hpos] at h'
          unfold setKey at h'
          by_cases hk : k = r.1
          · rw [if_pos hk] at h'
            obtain rfl : r.2 = v := Option.some.inj h'
            refine Or.inr ⟨?_, hpos⟩
            have : (k, r.2) = r := by rw [hk]
            rw [this]
            exact List.mem_cons_self _ _
          · rw [if_neg hk] at h'
            exact Or.inl h'
        · rw [if_neg hpos] at h'
          exact Or.inl h'
      · exact Or.inr ⟨List.mem_cons_of_mem _ h'.1, h'.2⟩

/-- C2: the probe-batch merge is monotonic-additive — a stored positive
duration survives a batch whose results for its key are all `0`, because
only strictly positive probe results are ever written into the map. -/
theorem c2_duration_merge_monotonic :
    (∀ (prev : String → Option Rat) (batchResults : List (String × Rat)) (k : String) (d : Rat),
      prev k = some d → 0 < d → (∀ r ∈ batchResults, r.1 = k → r.2 = 0) →
      mergeBatchDurations prev batchResults k = some d) ∧
    (∀ (prev : String → Option Rat) (batchResults : List (String × Rat)) (k : String) (v : Rat),
      mergeBatchDurations prev batchResults k = some v →
      prev k = some v ∨ ((k, v) ∈ batchResults ∧ 0 < v)) := by
  constructor
  · intro prev results k d hprev _ hzero
    unfold mergeBatchDurations buildPositiveMap
    rw [buildPositiveMap_foldl_unchanged k results emptyMap hzero]
    exact hprev
  · intro prev results k v h
    unfold mergeBatchDurations at h
    cases hb : buildPositiveMap results k with
    | none => rw [hb] at h; exact Or.inl h
    | some w =>
        rw [hb] at h
        obtain rfl : w = v := Option.some.inj h
        unfold buildPositiveMap at hb
        rcases buildPositiveMap_foldl_source k w results emptyMap hb with h' | h'
        · exact absurd h' (by unfold emptyMap; simp)
        · exact Or.inr h'

theorem c2_witness :
    (fun k => if k = "song.mp3-100" then some (180 : Rat) else none) "song.mp3-100"
        = some (180 : Rat) ∧
    (0 : Rat) < 180 ∧
    (∀ r ∈ [("song.mp3-100", (0 : Rat))], r.1 = "song.mp3-100" → r.2 = 0) ∧
    mergeBatchDurations (fun k => if k = "song.mp3-100" then some (180 : Rat) else none)
        [("song.mp3-100", (0 : Rat))] "song.mp3-100" = some (180 : Rat) := by
  refine ⟨by decide, by norm_num, by decide, ?_⟩
  exact c2_duration_merge_monotonic.1 _ _ _ _ (by decide) (by norm_num) (by decide)

/-! ## Tracks-subfolder search lemmas -/

theorem findTracksFolderId_eq_none (cfg : String) :
    ∀ rows : List String, (∀ row ∈ rows, rowMatchesTracksFolder cfg row = false) →
      findTracksFolderId cfg rows = none := by
  intro rows
  induction rows with
  | nil => intro _; rfl
  | cons row rest ih =>
      intro h
      have hrow := h row (List.mem_cons_self _ _)
      have hrest := ih fun r hr => h r (List.mem_cons_of_mem _ hr)
      unfold rowMatchesTracksFolder at hrow
      unfold findTracksFolderId
      cases hid : extractDataId row.data with
      | none => simp only [hid]; exact hrest
      | some fid =>
          simp only [hid, Option.isSome_some, Bool.true_and] at hrow ⊢
          cases hf : isFolderRow row.data with
          | false => simp only [hf, Bool.false_eq_true, if_false]; exact hrest
          | true =>
              simp only [hf, if_true, Bool.true_and] at hrow ⊢
              cases hnm : extractRowFolderName row.data with
              | none => simp only [hnm]; exact hrest
              | some nm =>
                  simp only [hnm] at hrow ⊢
                  rw [if_neg (by rw [hrow]; exact Bool.false_ne_true)]
                  exact hrest

/-- C3: with a configured, non-empty tracks-subfolder name that no
folder-kind root row matches (case-insensitive substring over the
extracted folder name), the resolver returns the "tracks folder not found"
error with an empty files array — it never serves the root listing's
files. -/
theorem c3_tracks_folder_not_found_strict :
    ∀ (cfgTracks folderName : String) (rootRows : List String)
      (fetchTracksSub : String → Option (List String))
      (fallbackPairs : List (String × String)) (artistRows : List String),
      cfgTracks ≠ "" → String.mk (trimChars cfgTracks.data) ≠ "" →
      (∀ row ∈ rootRows, rowMatchesTracksFolder cfgTracks row = false) →
      drivePost cfgTracks folderName rootRows fetchTracksSub fallbackPairs artistRows =
        ⟨some (tracksNotFoundMsg cfgTracks), [], folderName⟩ := by
  intro cfg fn rows fsub fp ar h1 h2 h3
  unfold drivePost
  rw [if_pos ⟨h1, h2⟩, findTracksFolderId_eq_none cfg rows h3]

theorem c3_witness :
    ("tracks" : String) ≠ "" ∧ String.mk (trimChars ("tracks" : String).data) ≠ "" ∧
    (∀ row ∈ [("<tr data-id=\"rowid1\"><strong>song.mp3</strong></tr>" : String)],
      rowMatchesTracksFolder "tracks" row = false) ∧
    drivePost "tracks" "My Folder" ["<tr data-id=\"rowid1\"><strong>song.mp3</strong></tr>"]
        (fun _ => none) [] [] =
      ⟨some (tracksNotFoundMsg "tracks"), [], "My Folder"⟩ :=
  ⟨by decide, by decide, by decide,
    c3_tracks_folder_not_found_strict "tracks" "My Folder"
      ["<tr data-id=\"rowid1\"><strong>song.mp3</strong></tr>"]
      (fun _ => none) [] [] (by decide) (by decide) (by decide)⟩

/-! ## Listing-extraction dedup lemmas -/

theorem push_preserves (files : List DriveFile) (seen : List String) (x : DriveFile)
    (hnd : (files.map DriveFile.id).Nodup) (hsub : ∀ f ∈ files, f.id ∈ seen)
    (hnew : seen.contains x.id = false) :
    ((files ++ [x]).map DriveFile.id).Nodup ∧
      ∀ f ∈ files ++ [x], f.id ∈ seen ++ [x.id] := by
  have hxid : x.id ∉ seen := by
    intro hmem
    rw [List.contains_eq_any_beq] at hnew
    have : seen.any (fun a => x.id == a) = true :=
      List.any_eq_true.mpr ⟨x.id, hmem, by simp⟩
    rw [this] at hnew
    exact Bool.noConfusion hnew
  constructor
  · rw [List.map_append, List.nodup_append]
    refine ⟨hnd, List.nodup_singleton _, ?_⟩
    intro a ha hb
    simp only [List.map_cons, List.map_nil, List.mem_singleton] at hb
    subst hb
    obtain ⟨f, hf, hfid⟩ := List.mem_map.mp ha
    exact hxid (hfid ▸ hsub f hf)
  · intro f hf
    rcases List.mem_append.mp hf with h | h
    · exact List.mem_append.mpr (Or.inl (hsub f h))
    · simp only [List.mem_singleton] at h
      subst h
      exact List.mem_append.mpr (Or.inr (List.mem_singleton.mpr rfl))

theorem foldl_extraction_inv {β : Type}
    (step : List DriveFile × List String → β → List DriveFile × List String)
    (hstep : ∀ acc b, (acc.1.map DriveFile.id).Nodup → (∀ f ∈ acc.1, f.id ∈ acc.2) →
      ((step acc b).1.map DriveFile.id).Nodup ∧ ∀ f ∈ (step acc b).1, f.id ∈ (step acc b).2) :
    ∀ (l : List β) (acc : List DriveFile × List String),
      (acc.1.map DriveFile.id).Nodup → (∀ f ∈ acc.1, f.id ∈ acc.2) →
      ((l.foldl step acc).1.map DriveFile.id).Nodup ∧
        ∀ f ∈ (l.foldl step acc).1, f.id ∈ (l.foldl step acc).2 := by
  intro l
  induction l with
  | nil => intro acc h1 h2; exact ⟨h1, h2⟩
  | cons b t ih =>
      intro acc h1 h2
      simp only [List.foldl_cons]
      obtain ⟨h1', h2'⟩ := hstep acc b h1 h2
      exact ih (step acc b) h1' h2'

theorem primaryStep_preserves (acc : List DriveFile × List String) (row : String)
    (h1 : (acc.1.map DriveFile.id).Nodup) (h2 : ∀ f ∈ acc.1, f.id ∈ acc.2) :
    ((primaryStep acc row).1.map DriveFile.id).Nodup ∧
      ∀ f ∈ (primaryStep acc row).1, f.id ∈ (primaryStep acc row).2 := by
  unfold primaryStep
  cases extractDataId row.data with
  | none => exact ⟨h1, h2⟩
  | some fileId =>
      cases extractFileName allExts row.data with
      | none => exact ⟨h1, h2⟩
      | some fileName =>
          dsimp only
          split
          · rename_i hcond
            rw [Bool.and_eq_true, Bool.not_eq_true'] at hcond
            exact push_preserves acc.1 acc.2 _ h1 h2 hcond.2
          · exact ⟨h1, h2⟩

theorem fallbackStep_preserves (acc : List DriveFile × List String) (pair : String × String)
    (h1 : (acc.1.map DriveFile.id).Nodup) (h2 : ∀ f ∈ acc.1, f.id ∈ acc.2) :
    ((fallbackStep acc pair).1.map DriveFile.id).Nodup ∧
      ∀ f ∈ (fallbackStep acc pair).1, f.id ∈ (fallbackStep acc pair).2 := by
  unfold fallbackStep
  split
  · rename_i hcond
    rw [Bool.and_eq_true, Bool.and_eq_true, Bool.not_eq_true'] at hcond
    exact push_preserves acc.1 acc.2 _ h1 h2 hcond.1.1
  · exact ⟨h1, h2⟩

theorem artistStep_preserves (acc : List DriveFile × List String) (row : String)
    (h1 : (acc.1.map DriveFile.id).Nodup) (h2 : ∀ f ∈ acc.1, f.id ∈ acc.2) :
    ((artistStep acc row).1.map DriveFile.id).Nodup ∧
      ∀ f ∈ (artistStep acc row).1, f.id ∈ (artistStep acc row).2 := by
  unfold artistStep
  cases extractDataId row.data with
  | none => exact ⟨h1, h2⟩
  | some fileId =>
      cases extractFileName imageExts row.data with
      | none => exact ⟨h1, h2⟩
      | some fileName =>
          dsimp only
          split
          · rename_i hcond
            rw [Bool.and_eq_true, Bool.not_eq_true'] at hcond
            exact push_preserves acc.1 acc.2 _ h1 h2 hcond.2
          · exact ⟨h1, h2⟩

/-- C7: across the primary row pass, the fallback attribute-pair pass and
the artist-subfolder pass combined, the produced entry list holds at most
one entry per id — every push is guarded by the shared `seenIds` set. -/
theorem c7_entry_ids_nodup :
    ∀ (rows : List String) (fallbackPairs : List (String × String)) (artistRows : List String),
      ((collectFiles rows fallbackPairs artistRows).map DriveFile.id).Nodup := by
  intro rows fallbackPairs artistRows
  unfold collectFiles
  have hacc1 := foldl_extraction_inv primaryStep primaryStep_preserves rows ([], [])
    (by simp) (by simp)
  have hacc2 : (((if (rows.foldl primaryStep ([], [])).1.length = 0 then
        fallbackPairs.foldl fallbackStep (rows.foldl primaryStep ([], []))
      else rows.foldl primaryStep ([], [])).1.map DriveFile.id).Nodup) ∧
      ∀ f ∈ (if (rows.foldl primaryStep ([], [])).1.length = 0 then
        fallbackPairs.foldl fallbackStep (rows.foldl primaryStep ([], []))
      else rows.foldl primaryStep ([], [])).1,
        f.id ∈ (if (rows.foldl primaryStep ([], [])).1.length = 0 then
        fallbackPairs.foldl fallbackStep (rows.foldl primaryStep ([], []))
      else rows.foldl primaryStep ([], [])).2 := by
    split
    · exact foldl_extraction_inv fallbackStep fallbackStep_preserves fallbackPairs _
        hacc1.1 hacc1.2
    · exact hacc1
  exact (foldl_extraction_inv artistStep artistStep_preserves artistRows _
    hacc2.1 hacc2.2).1

/-! ## Artist-Image Matcher lemmas -/

theorem imageFold_eq_find (k : String) :
    ∀ (images : List NamedFile) (m : String → Option String),
      (images.foldl (fun m image =>
        setKey m (String.mk (lowerChars (stripExtension image.name.data))) image.id) m) k =
      match images.reverse.find?
          (fun i => String.mk (lowerChars (stripExtension i.name.data)) == k) with
      | some i => some i.id
      | none => m k := by
  intro images
  induction images with
  | nil => intro m; rfl
  | cons i t ih =>
      intro m
      simp only [List.foldl_cons, List.reverse_cons, List.find?_append]
      rw [ih]
      cases hft : t.reverse.find?
          (fun i => String.mk (lowerChars (stripExtension i.name.data)) == k) with
      | some j => rfl
      | none =>
          simp only [Option.none_or]
          cases hp : (String.mk (lowerChars (stripExtension i.name.data)) == k) with
          | true =>
              simp only [List.find?_cons, hp]
              unfold setKey
              rw [if_pos (beq_iff_eq.mp hp).symm]
          | false =>
              simp only [List.find?_cons, hp, List.find?_nil]
              unfold setKey
              rw [if_neg fun he => by rw [he] at hp; simp at hp]

theorem audioFold_not_touched (images : List NamedFile) (k : String) :
    ∀ (audios : List NamedFile) (m : String → Option String),
      k ∉ audios.map NamedFile.id →
      (audios.foldl (fun m audio =>
        match imageMapByName images
            (String.mk (lowerChars (parseTrackName audio.name).artist.data)) with
        | some imageId => setKey m audio.id imageId
        | none => m) m) k = m k := by
  intro audios
  induction audios with
  | nil => intro m _; rfl
  | cons b t ih =>
      intro m hk
      simp only [List.map_cons, List.mem_cons, not_or] at hk
      simp only [List.foldl_cons]
      rw [ih _ (by simpa using hk.2)]
      cases imageMapByName images
          (String.mk (lowerChars (parseTrackName b.name).artist.data)) with
      | some iid =>
          simp only [setKey]
          rw [if_neg hk.1]
      | none => rfl

theorem audioFold_eq (images : List NamedFile) :
    ∀ (audios : List NamedFile) (m : String → Option String) (a : NamedFile),
      a ∈ audios → (audios.map NamedFile.id).Nodup → m a.id = none →
      (audios.foldl (fun m audio =>
        match imageMapByName images
            (String.mk (lowerChars (parseTrackName audio.name).artist.data)) with
        | some imageId => setKey m audio.id imageId
        | none => m) m) a.id =
      imageMapByName images (String.mk (lowerChars (parseTrackName a.name).artist.data)) := by
  intro audios
  induction audios with
  | nil => intro m a ha; exact absurd ha (List.not_mem_nil a)
  | cons b t ih =>
      intro m a ha hnd hm
      simp only [List.map_cons, List.nodup_cons] at hnd
      simp only [List.foldl_cons]
      rcases List.mem_cons.mp ha with rfl | hat
      · rw [audioFold_not_touched images a.id t _ hnd.1]
        cases hl : imageMapByName images
            (String.mk (lowerChars (parseTrackName a.name).artist.data)) with
        | some iid => simp [setKey]
        | none => exact hm
      · have hbne : b.id ≠ a.id := by
          intro he
          exact hnd.1 (he ▸ List.mem_map.mpr ⟨a, hat, rfl⟩)
        refine ih _ a hat hnd.2 ?_
        cases imageMapByName images
            (String.mk (lowerChars (parseTrackName b.name).artist.data)) with
        | some iid =>
            simp only [setKey]
            rw [if_neg fun he => hbne he.symm]
            exact hm
        | none => exact hm

/-- C6: the Artist-Image Matcher maps an audio entry to some image exactly
when an image entry's extension-stripped, lower-cased filename equals the
audio entry's lower-cased parsed artist, any produced mapping points at an
image satisfying that equality, and on the concrete example
`{a1, "Song (Artist X).mp3"}` / `{i1, "Artist X.png"}` it maps `a1 → i1`. -/
theorem c6_artist_image_matcher :
    (∀ (audios images : List NamedFile), (audios.map NamedFile.id).Nodup →
      ∀ a ∈ audios,
        ((∃ iid, matchArtistImages audios images a.id = some iid) ↔
          ∃ i ∈ images, String.mk (lowerChars (stripExtension i.name.data)) =
            String.mk (lowerChars (parseTrackName a.name).artist.data)) ∧
        (∀ iid, matchArtistImages audios images a.id = some iid →
          ∃ i ∈ images, i.id = iid ∧
            String.mk (lowerChars (stripExtension i.name.data)) =
              String.mk (lowerChars (parseTrackName a.name).artist.data))) ∧
    matchArtistImages [⟨"a1", "Song (Artist X).mp3"⟩] [⟨"i1", "Artist X.png"⟩] "a1" =
      some "i1" := by
  constructor
  · intro audios images hnd a ha
    have hres : matchArtistImages audios images a.id =
        imageMapByName images (String.mk (lowerChars (parseTrackName a.name).artist.data)) :=
      audioFold_eq images audios emptyMap a ha hnd rfl
    have hfind := imageFold_eq_find
      (String.mk (lowerChars (parseTrackName a.name).artist.data)) images emptyMap
    constructor
    · rw [hres]
      unfold imageMapByName
      rw [hfind]
      cases hft : images.reverse.find? (fun i =>
          String.mk (lowerChars (stripExtension i.name.data)) ==
            String.mk (lowerChars (parseTrackName a.name).artist.data)) with
      | some j =>
          simp only [Option.some.injEq]
          have hpj := List.find?_some hft
          have hmj := List.mem_of_find?_eq_some hft
          constructor
          · intro _
            exact ⟨j, List.mem_reverse.mp hmj, beq_iff_eq.mp hpj⟩
          · intro _
            exact ⟨j.id, rfl⟩
      | none =>
          constructor
          · intro ⟨iid, h⟩
            exact absurd h (by unfold emptyMap; simp)
          · intro ⟨i, hi, heq⟩
            have : (images.reverse.find? (fun i =>
                String.mk (lowerChars (stripExtension i.name.data)) ==
                  String.mk (lowerChars (parseTrackName a.name).artist.data))).isSome :=
              List.find?_isSome.mpr ⟨i, List.mem_reverse.mpr hi, beq_iff_eq.mpr heq⟩
            rw [hft] at this
            exact absurd this (by simp)
    · intro iid h
      rw [hres] at h
      unfold imageMapByName at h
      rw [hfind] at h
      cases hft : images.reverse.find? (fun i =>
          String.mk (lowerChars (stripExtension i.name.data)) ==
            String.mk (lowerChars (parseTrackName a.name).artist.data)) with
      | some j =>
          rw [hft] at h
          have hpj := List.find?_some hft
          have hmj := List.mem_of_find?_eq_some hft
          exact ⟨j, List.mem_reverse.mp hmj, Option.some.inj h, beq_iff_eq.mp hpj⟩
      | none =>
          rw [hft] at h
          exact absurd h (by unfold emptyMap; simp)
  · decide

theorem c6_witness :
    (([⟨"a1", "Song (Artist X).mp3"⟩, ⟨"a2", "untitled.mp3"⟩] :
        List NamedFile).map NamedFile.id).Nodup ∧
    (⟨"a1", "Song (Artist X).mp3"⟩ : NamedFile) ∈
      ([⟨"a1", "Song (Artist X).mp3"⟩, ⟨"a2", "untitled.mp3"⟩] : List NamedFile) ∧
    (((∃ iid, matchArtistImages [⟨"a1", "Song (Artist X).mp3"⟩, ⟨"a2", "untitled.mp3"⟩]
          [⟨"i1", "Artist X.png"⟩] "a1" = some iid) ↔
        ∃ i ∈ ([⟨"i1", "Artist X.png"⟩] : List NamedFile),
          String.mk (lowerChars (stripExtension i.name.data)) =
            String.mk (lowerChars
              (parseTrackName (⟨"a1", "Song (Artist X).mp3"⟩ : NamedFile).name).artist.data)) ∧
      (∀ iid, matchArtistImages [⟨"a1", "Song (Artist X).mp3"⟩, ⟨"a2", "untitled.mp3"⟩]
          [⟨"i1", "Artist X.png"⟩] "a1" = some iid →
        ∃ i ∈ ([⟨"i1", "Artist X.png"⟩] : List NamedFile), i.id = iid ∧
          String.mk (lowerChars (stripExtension i.name.data)) =
            String.mk (lowerChars
              (parseTrackName (⟨"a1", "Song (Artist X).mp3"⟩ : NamedFile).name).artist.data))) :=
  ⟨by decide, by decide,
    c6_artist_image_matcher.1 [⟨"a1", "Song (Artist X).mp3"⟩, ⟨"a2", "untitled.mp3"⟩]
      [⟨"i1", "Artist X.png"⟩] (by decide) ⟨"a1", "Song (Artist X).mp3"⟩ (by decide)⟩

/-! ## Decimal-digit and time-format lemmas -/

theorem digitChar_props (d : Nat) (h : d < 10) :
    (digitChar d).toNat = 48 + d ∧ Char.isDigit (digitChar d) = true ∧
    jsWs (digitChar d) = false ∧ digitChar d ≠ ':' ∧
    digitChar d ≠ '-' ∧ digitChar d ≠ '+' := by
  interval_cases d <;>
    exact ⟨by decide, by decide, by decide, by decide, by decide, by decide⟩

theorem natToCharsAux_append : ∀ (fuel n : Nat) (acc : List Char), n < fuel →
    natToCharsAux fuel n acc = natToCharsAux fuel n [] ++ acc := by
  intro fuel
  induction fuel with
  | zero => intro n acc h; exact absurd h (Nat.not_lt_zero n)
  | succ f ih =>
      intro n acc h
      simp only [natToCharsAux]
      by_cases h10 : n / 10 = 0
      · rw [if_pos h10, if_pos h10]
        rfl
      · rw [if_neg h10, if_neg h10]
        have hlt : n / 10 < f := by omega
        rw [ih (n / 10) (digitChar (n % 10) :: acc) hlt,
            ih (n / 10) [digitChar (n % 10)] hlt]
        simp

theorem natToCharsAux_fuel : ∀ (n f1 f2 : Nat), n < f1 → n < f2 →
    natToCharsAux f1 n [] = natToCharsAux f2 n [] := by
  intro n
  induction n using Nat.strong_induction_on with
  | _ n ih =>
      intro f1 f2 h1 h2
      cases f1 with
      | zero => exact absurd h1 (Nat.not_lt_zero n)
      | succ a =>
          cases f2 with
          | zero => exact absurd h2 (Nat.not_lt_zero n)
          | succ b =>
              simp only [natToCharsAux]
              by_cases h10 : n / 10 = 0
              · rw [if_pos h10, if_pos h10]
              · rw [if_neg h10, if_neg h10]
                rw [natToCharsAux_append a (n / 10) _ (by omega),
                    natToCharsAux_append b (n / 10) _ (by omega),
                    ih (n / 10) (by omega) a b (by omega) (by omega)]

theorem natToCharsAux_succ (f n : Nat) (acc : List Char) :
    natToCharsAux (f + 1) n acc = if n / 10 = 0 then digitChar (n % 10) :: acc
      else natToCharsAux f (n / 10) (digitChar (n % 10) :: acc) := rfl

theorem natToChars_unfold (n : Nat) :
    natToChars n = if n / 10 = 0 then [digitChar (n % 10)]
      else natToChars (n / 10) ++ [digitChar (n % 10)] := by
  unfold natToChars
  rw [natToCharsAux_succ]
  by_cases h10 : n / 10 = 0
  · rw [if_pos h10, if_pos h10]
  · rw [if_neg h10, if_neg h10,
        natToCharsAux_append n (n / 10) _ (by omega),
        natToCharsAux_fuel (n / 10) n (n / 10 + 1) (by omega) (by omega)]

theorem natToChars_shape (n : Nat) : ∀ c ∈ natToChars n, ∃ d, d < 10 ∧ c = digitChar d := by
  induction n using Nat.strong_induction_on with
  | _ n ih =>
      rw [natToChars_unfold]
      by_cases h10 : n / 10 = 0
      · rw [if_pos h10]
        intro c hc
        rw [List.mem_singleton] at hc
        exact ⟨n % 10, by omega, hc⟩
      · rw [if_neg h10]
        intro c hc
        rcases List.mem_append.mp hc with h | h
        · exact ih (n / 10) (by omega) c h
        · rw [List.mem_singleton] at h
          exact ⟨n % 10, by omega, h⟩

theorem natToChars_ne_nil (n : Nat) : natToChars n ≠ [] := by
  rw [natToChars_unfold]
  by_cases h10 : n / 10 = 0
  · rw [if_pos h10]; simp
  · rw [if_neg h10]; simp

theorem charsToNat_append_singleton (l : List Char) (c : Char) :
    charsToNat (l ++ [c]) = charsToNat l * 10 + (c.toNat - 48) := by
  unfold charsToNat
  rw [List.foldl_append]
  rfl

theorem charsToNat_natToChars (n : Nat) : charsToNat (natToChars n) = n := by
  induction n using Nat.strong_induction_on with
  | _ n ih =>
      rw [natToChars_unfold]
      by_cases h10 : n / 10 = 0
      · rw [if_pos h10]
        unfold charsToNat
        simp only [List.foldl_cons, List.foldl_nil]
        rw [(digitChar_props (n % 10) (by omega)).1]
        omega
      · rw [if_neg h10, charsToNat_append_singleton, ih (n / 10) (by omega),
            (digitChar_props (n % 10) (by omega)).1]
        omega

theorem charsToNat_zero_prepend : ∀ (m : Nat) (l : List Char),
    charsToNat (List.replicate m '0' ++ l) = charsToNat l := by
  intro m
  induction m with
  | zero => intro l; rfl
  | succ k ih =>
      intro l
      rw [List.replicate_succ]
      unfold charsToNat
      simp only [List.cons_append, List.foldl_cons]
      have h48 : (0 : Nat) * 10 + ('0'.toNat - 48) = 0 := by decide
      rw [h48]
      exact ih l

theorem padStart2Zero_parse (l : List Char) :
    charsToNat (padStart2Zero l) = charsToNat l := by
  unfold padStart2Zero
  split
  · rfl
  · rw [charsToNat_zero_prepend]

theorem padStart2Zero_shape (l : List Char)
    (hl : ∀ c ∈ l, ∃ d, d < 10 ∧ c = digitChar d) :
    ∀ c ∈ padStart2Zero l, ∃ d, d < 10 ∧ c = digitChar d := by
  unfold padStart2Zero
  split
  · exact hl
  · intro c hc
    rcases List.mem_append.mp hc with h | h
    · exact ⟨0, by omega, by rw [List.eq_of_mem_replicate h]; rfl⟩
    · exact hl c h

theorem padStart2Zero_ne_nil (l : List Char) (h : l ≠ []) : padStart2Zero l ≠ [] := by
  unfold padStart2Zero
  split
  · exact h
  · simp [h]

theorem takeWhile_all {α : Type} (p : α → Bool) :
    ∀ l : List α, (∀ c ∈ l, p c = true) → l.takeWhile p = l := by
  intro l
  induction l with
  | nil => intro _; rfl
  | cons a t ih =>
      intro h
      rw [List.takeWhile_cons, h a (List.mem_cons_self _ _)]
      simp only [if_true]
      rw [ih fun c hc => h c (List.mem_cons_of_mem _ hc)]

theorem jsParseIntChars_digits (l : List Char) (hne : l ≠ [])
    (hshape : ∀ c ∈ l, ∃ d, d < 10 ∧ c = digitChar d) :
    jsParseIntChars l = some ((charsToNat l : Nat) : Int) := by
  obtain ⟨c, t, rfl⟩ : ∃ c t, l = c :: t := by
    cases l with
    | nil => exact absurd rfl hne
    | cons c t => exact ⟨c, t, rfl⟩
  obtain ⟨d, hd, rfl⟩ := hshape _ (List.mem_cons_self _ _)
  have hp := digitChar_props d hd
  have hall : ∀ x ∈ digitChar d :: t, Char.isDigit x = true := by
    intro x hx
    obtain ⟨e, he, rfl⟩ := hshape x hx
    exact (digitChar_props e he).2.1
  unfold jsParseIntChars
  rw [List.dropWhile_cons, hp.2.2.1]
  simp only [Bool.false_eq_true, if_false]
  rw [if_neg hp.2.2.2.2.1, if_neg hp.2.2.2.2.2]
  rw [takeWhile_all Char.isDigit _ hall]
  simp

theorem splitOnChar_cons (sep c : Char) (t : List Char) :
    splitOnChar sep (c :: t) =
      if c = sep then [] :: splitOnChar sep t
      else match splitOnChar sep t with
        | [] => [[c]]
        | h :: r => (c :: h) :: r := rfl

theorem splitOnChar_no_sep (sep : Char) : ∀ l : List Char, (∀ c ∈ l, c ≠ sep) →
    splitOnChar sep l = [l] := by
  intro l
  induction l with
  | nil => intro _; rfl
  | cons c t ih =>
      intro h
      rw [splitOnChar_cons, if_neg (h c (List.mem_cons_self _ _)),
          ih fun x hx => h x (List.mem_cons_of_mem _ hx)]

theorem splitOnChar_append (sep : Char) : ∀ (a b : List Char), (∀ c ∈ a, c ≠ sep) →
    splitOnChar sep (a ++ sep :: b) = a :: splitOnChar sep b := by
  intro a
  induction a with
  | nil =>
      intro b _
      simp only [List.nil_append]
      rw [splitOnChar_cons, if_pos rfl]
  | cons c t ih =>
      intro b h
      simp only [List.cons_append]
      rw [splitOnChar_cons, if_neg (h c (List.mem_cons_self _ _)),
          ih b fun x hx => h x (List.mem_cons_of_mem _ hx)]

/-- C10: `parseTimeString` inverts `formatDuration` on every natural
number of seconds, across both the `MM:SS` and `H:MM:SS` layouts. -/
theorem c10_format_parse_round_trip (s : Nat) :
    parseTimeString (formatDuration s) = some (s : Int) := by
  have hcolon : ∀ n : Nat, ∀ c ∈ natToChars n, c ≠ ':' := by
    intro n c hc
    obtain ⟨d, hd, rfl⟩ := natToChars_shape n c hc
    exact (digitChar_props d hd).2.2.2.1
  have hcolonPad : ∀ n : Nat, ∀ c ∈ padStart2Zero (natToChars n), c ≠ ':' := by
    intro n c hc
    obtain ⟨d, hd, rfl⟩ := padStart2Zero_shape _ (natToChars_shape n) c hc
    exact (digitChar_props d hd).2.2.2.1
  have hparseN : ∀ n : Nat, jsParseIntChars (natToChars n) = some (n : Int) := by
    intro n
    rw [jsParseIntChars_digits _ (natToChars_ne_nil n) (natToChars_shape n),
        charsToNat_natToChars]
  have hparseP : ∀ n : Nat, jsParseIntChars (padStart2Zero (natToChars n)) = some (n : Int) := by
    intro n
    rw [jsParseIntChars_digits _ (padStart2Zero_ne_nil _ (natToChars_ne_nil n))
        (padStart2Zero_shape _ (natToChars_shape n)),
        padStart2Zero_parse, charsToNat_natToChars]
  by_cases h0 : s = 0
  · subst h0; decide
  · unfold formatDuration
    rw [if_neg h0]
    dsimp only
    by_cases hh : s / 3600 > 0
    · rw [if_pos hh]
      unfold parseTimeString
      show (match (splitOnChar ':' (natToChars (s / 3600) ++
          ':' :: (padStart2Zero (natToChars (s % 3600 / 60)) ++
            ':' :: padStart2Zero (natToChars (s % 60))))).map jsParseIntChars with
        | [some m, some s] => some (m * 60 + s)
        | [_, _] => none
        | [some h, some m, some s] => some (h * 3600 + m * 60 + s)
        | [_, _, _] => none
        | _ => some 0) = some (s : Int)
      rw [splitOnChar_append ':' _ _ (hcolon _),
          splitOnChar_append ':' _ _ (hcolonPad _),
          splitOnChar_no_sep ':' _ (hcolonPad _)]
      simp only [List.map_cons, List.map_nil, hparseN, hparseP]
      simp only [Option.some.injEq]
      omega
    · rw [if_neg hh]
      unfold parseTimeString
      show (match (splitOnChar ':' (natToChars (s % 3600 / 60) ++
          ':' :: padStart2Zero (natToChars (s % 60)))).map jsParseIntChars with
        | [some m, some s] => some (m * 60 + s)
        | [_, _] => none
        | [some h, some m, some s] => some (h * 3600 + m * 60 + s)
        | [_, _, _] => none
        | _ => some 0) = some (s : Int)
      rw [splitOnChar_append ':' _ _ (hcolon _),
          splitOnChar_no_sep ':' _ (hcolonPad _)]
      simp only [List.map_cons, List.map_nil, hparseN, hparseP]
      simp only [Option.some.injEq]
      omega

end DropList
